import Mathlib

/-!
Verification development for the git-lint core (gitlint/utils.py and
gitlint/linters.py): a shallow embedding of the output parser, the
invocation hash, the output cache, the process-running lint command, the
configuration compiler and the lint orchestrator, together with theorems
checking the documented behaviour.

Modelling conventions:
* Python byte strings and text strings are both modelled as Lean `String`
  (process output is decoded utf-8 in the source before any parsing).
* The compiled regular expression produced by
  `re.compile(filter_regex.format(lines=..., filename=...))` is modelled as
  an abstract search function `String → Option MatchData` returning, for a
  matching line, the value of `match.groupdict().get(g)` for each of the
  five named groups (`none` when the group did not participate in the
  match).
* The filesystem is modelled as an explicit record of functions
  (`FileSys`), the home directory and the `os.path.abspath` resolution as
  explicit parameters, and the external process as an explicit
  `ProcChild` value describing how `subprocess.check_output` returns for
  this invocation.  Side effects of `lint_command` (which command line was
  launched, what was written to the cache) are returned as fields of
  `CmdResult`.
-/

/-! ### Output parser (gitlint/utils.py `filter_lines`, gitlint/linters.py lines 107-132) -/

/-- Values of the five named capture groups of the filter pattern for one
matching output line: `match.groupdict().get(g)` for
g ∈ (line, column, message, severity, message_id). A field is `none` when
the group did not participate in the match or is absent from the pattern. -/
structure MatchData where
  line : Option String
  column : Option String
  message : Option String
  severity : Option String
  message_id : Option String
deriving DecidableEq

/-- Default match data (all groups unmatched). -/
def defaultMatchData : MatchData := ⟨none, none, none, none, none⟩

/-- One structured finding, as built by `lint_command` from a matching
line: the dict `{g: v for (g, v) in zip(groups, data) if v is not None}`
after integer conversion of line/column and title-casing of severity.
A field is `none` exactly when the named group did not match. -/
structure Comment where
  line : Option Int
  column : Option Int
  message : Option String
  severity : Option String
  message_id : Option String
deriving DecidableEq

/-- Python `int(s)` on the captured strings. The source never catches the
ValueError that a non-numeric capture would raise; the model totalises the
function with 0 on that (never-exercised) domain. -/
def pyInt (s : String) : Int := s.toInt?.getD 0

/-- Helper for `pyTitle`: the boolean records whether the previous
character was a letter (Python treats maximal letter runs as words,
uppercasing the first character of each and lowercasing the rest). -/
def pyTitleAux : List Char → Bool → List Char
  | [], _ => []
  | c :: cs, prevAlpha =>
    if c.isAlpha then
      (if prevAlpha then c.toLower else c.toUpper) :: pyTitleAux cs true
    else
      c :: pyTitleAux cs false

/-- Python `str.title()` restricted to ASCII, as applied to the severity
capture (for example "error" becomes "Error"). -/
def pyTitle (s : String) : String := ⟨pyTitleAux s.data false⟩

/-- Value of `os.linesep` on the POSIX platforms the source targets. -/
def os_linesep : String := "\n"

/-- Python `output.split(os.linesep)` (gitlint/linters.py line 107). -/
def splitLines (output : String) : List String := output.splitOn os_linesep

/-- Embedding of `gitlint.utils.filter_lines` in the form `lint_command`
uses it: `groups` has the five names, so each matching line yields the
tuple of its groupdict values and non-matching lines are dropped. -/
def filter_lines (lines : List String) (search : String → Option MatchData) :
    List MatchData :=
  lines.filterMap search

/-- Comment construction of gitlint/linters.py lines 122-130: keep only
the groups that matched, convert line and column with `int`, title-case
the severity, keep message and message_id raw. -/
def mkComment (d : MatchData) : Comment :=
  { line := d.line.map pyInt
    column := d.column.map pyInt
    message := d.message
    severity := d.severity.map pyTitle
    message_id := d.message_id }

/-- The parsing pipeline of `lint_command` on acquired output text
(gitlint/linters.py lines 107-130): split into lines, filter by the
compiled pattern, build one comment per matching line. -/
def parse_output (search : String → Option MatchData) (output : String) :
    List Comment :=
  (filter_lines (splitLines output) search).map mkComment

/-- The `lines_regex` string built by `lint_command` (gitlint/linters.py
lines 109-113) and substituted for the `lines` placeholder of the filter
pattern: a catch-all digits pattern when no line restriction is given,
else the alternation of the requested line numbers. -/
def lines_regex (lines : Option (List Int)) : String :=
  "(" ++ (match lines with
          | none => "\\d+"
          | some ls => String.intercalate "|" (ls.map toString)) ++ ")"

/-! ### SHA-256 and `gitlint.utils.calculate_hash` -/

/-- Truncation to a 32-bit word. -/
def w32 (n : Nat) : Nat := n % 4294967296

/-- Rotation of a 32-bit word to the right by n bits. -/
def rot32 (x n : Nat) : Nat := w32 (x >>> n ||| x <<< (32 - n))

/-- Choose function of the SHA-256 round (the complement of x is taken
within 32 bits). -/
def shaCh (x y z : Nat) : Nat := (x &&& y) ^^^ ((x ^^^ 4294967295) &&& z)

/-- Majority function of the SHA-256 round. -/
def shaMaj (x y z : Nat) : Nat := (x &&& y) ^^^ (x &&& z) ^^^ (y &&& z)

/-- Upper-case sigma 0 of SHA-256 (rotations by 2, 13 and 22). -/
def sigU0 (x : Nat) : Nat := rot32 x 2 ^^^ (rot32 x 13 ^^^ rot32 x 22)

/-- Upper-case sigma 1 of SHA-256 (rotations by 6, 11 and 25). -/
def sigU1 (x : Nat) : Nat := rot32 x 6 ^^^ (rot32 x 11 ^^^ rot32 x 25)

/-- Lower-case sigma 0 of SHA-256 (rotations by 7 and 18, shift by 3). -/
def sigL0 (x : Nat) : Nat := rot32 x 7 ^^^ (rot32 x 18 ^^^ x >>> 3)

/-- Lower-case sigma 1 of SHA-256 (rotations by 17 and 19, shift by 10). -/
def sigL1 (x : Nat) : Nat := rot32 x 17 ^^^ (rot32 x 19 ^^^ x >>> 10)

/-- The 64 round constants of SHA-256, in order. -/
def shaK : List Nat :=
  [1116352408, 1899447441, 3049323471, 3921009573, 961987163,
   1508970993, 2453635748, 2870763221, 3624381080, 310598401,
   607225278, 1426881987, 1925078388, 2162078206, 2614888103,
   3248222580, 3835390401, 4022224774, 264347078, 604807628,
   770255983, 1249150122, 1555081692, 1996064986, 2554220882,
   2821834349, 2952996808, 3210313671, 3336571891, 3584528711,
   113926993, 338241895, 666307205, 773529912, 1294757372,
   1396182291, 1695183700, 1986661051, 2177026350, 2456956037,
   2730485921, 2820302411, 3259730800, 3345764771, 3516065817,
   3600352804, 4094571909, 275423344, 430227734, 506948616,
   659060556, 883997877, 958139571, 1322822218, 1537002063,
   1747873779, 1955562222, 2024104815, 2227730452, 2361852424,
   2428436474, 2756734187, 3204031479, 3329325298]

/-- Big-endian byte expansion (k bytes). -/
def beBytes : Nat → Nat → List Nat
  | 0, _ => []
  | k + 1, n => beBytes k (n >>> 8) ++ [n % 256]

/-- SHA-256 message padding: append 0x80, zero bytes to 56 mod 64, then
the bit length as an 8-byte big-endian integer. -/
def padMessage (msg : List Nat) : List Nat :=
  let l := msg.length
  let k := (119 - (l % 64)) % 64
  msg ++ [128] ++ List.replicate k 0 ++ beBytes 8 (8 * l)

/-- Group bytes into big-endian 32-bit words. -/
def toWords : List Nat → List Nat
  | b0 :: b1 :: b2 :: b3 :: rest => (((b0 * 256 + b1) * 256 + b2) * 256 + b3) :: toWords rest
  | _ => []

/-- Group words into 16-word blocks. -/
def toBlocks : List Nat → List (List Nat)
  | w0 :: w1 :: w2 :: w3 :: w4 :: w5 :: w6 :: w7 :: w8 :: w9 :: w10 :: w11 :: w12 :: w13 :: w14 :: w15 :: rest =>
      [w0, w1, w2, w3, w4, w5, w6, w7, w8, w9, w10, w11, w12, w13, w14, w15] :: toBlocks rest
  | _ => []

/-- One message-schedule word from the previous sixteen (the accumulator
is kept most-recent first). -/
def scheduleStep (acc : List Nat) : Nat :=
  w32 (sigL1 (acc.getD 1 0) + acc.getD 6 0 + sigL0 (acc.getD 14 0) + acc.getD 15 0)

/-- Extend the schedule accumulator by n words and reverse it into
chronological order. -/
def extendSchedule : Nat → List Nat → List Nat
  | 0, acc => acc.reverse
  | n + 1, acc => extendSchedule n (scheduleStep acc :: acc)

/-- The eight 32-bit working variables of SHA-256. -/
structure ShaState where
  a : Nat
  b : Nat
  c : Nat
  d : Nat
  e : Nat
  f : Nat
  g : Nat
  h : Nat
deriving DecidableEq

/-- One SHA-256 compression round. -/
def shaRound (s : ShaState) (kw : Nat × Nat) : ShaState :=
  let t1 := w32 (s.h + sigU1 s.e + shaCh s.e s.f s.g + kw.1 + kw.2)
  let t2 := w32 (sigU0 s.a + shaMaj s.a s.b s.c)
  ⟨w32 (t1 + t2), s.a, s.b, s.c, w32 (s.d + t1), s.e, s.f, s.g⟩

/-- Compress one 16-word block into the running state. -/
def compressBlock (s : ShaState) (block : List Nat) : ShaState :=
  let ws := extendSchedule 48 block.reverse
  let r := (shaK.zip ws).foldl shaRound s
  ⟨w32 (s.a + r.a), w32 (s.b + r.b), w32 (s.c + r.c), w32 (s.d + r.d),
   w32 (s.e + r.e), w32 (s.f + r.f), w32 (s.g + r.g), w32 (s.h + r.h)⟩

/-- The initial hash value of SHA-256. -/
def shaInit : ShaState :=
  ⟨1779033703, 3144134277, 1013904242, 2773480762,
   1359893119, 2600822924, 528734635, 1541459225⟩

/-- Lowercase hex digit. -/
def hexDigit (n : Nat) : Char := if n < 10 then Char.ofNat (48 + n) else Char.ofNat (87 + n)

/-- Lowercase hex rendering of a word, k digits, most significant first. -/
def hexWord : Nat → Nat → List Char
  | 0, _ => []
  | k + 1, n => hexWord k (n >>> 4) ++ [hexDigit (n % 16)]

/-- SHA-256 hex digest of a byte list, as `hashlib.sha256(...).hexdigest()`. -/
def sha256hex (msg : List Nat) : String :=
  let s := (toBlocks (toWords (padMessage msg))).foldl compressBlock shaInit
  ⟨hexWord 8 s.a ++ hexWord 8 s.b ++ hexWord 8 s.c ++ hexWord 8 s.d ++
   hexWord 8 s.e ++ hexWord 8 s.f ++ hexWord 8 s.g ++ hexWord 8 s.h⟩

/-- Utf-8 encoding of one character. -/
def utf8Char (c : Char) : List Nat :=
  let n := c.toNat
  if n < 128 then [n]
  else if n < 2048 then [192 ||| (n >>> 6), 128 ||| (n &&& 63)]
  else if n < 65536 then [224 ||| (n >>> 12), 128 ||| ((n >>> 6) &&& 63), 128 ||| (n &&& 63)]
  else [240 ||| (n >>> 18), 128 ||| ((n >>> 12) &&& 63), 128 ||| ((n >>> 6) &&& 63), 128 ||| (n &&& 63)]

/-- Python `s.encode("utf-8")` as a byte list. -/
def strBytes (s : String) : List Nat := (s.data.map utf8Char).flatten

/-- The byte stream fed to the hash object by `calculate_hash`: the
program, then for each argument a "|" separator and the argument
(gitlint/utils.py lines 95-99). -/
def hashMsg (program : String) (arguments : List String) : List Nat :=
  strBytes program ++ (arguments.map (fun a => strBytes "|" ++ strBytes a)).flatten

/-- Embedding of `gitlint.utils.calculate_hash`: sha256 hex digest over
program and arguments only. -/
def calculate_hash (program : String) (arguments : List String) : String :=
  sha256hex (hashMsg program arguments)

/-! ### Output cache (gitlint/utils.py `_get_cache_filename`, `get_output_from_cache`) -/

/-- The filesystem facts `get_output_from_cache` consults, as explicit
functions: `os.path.exists`, `os.path.getmtime` and reading a text file. -/
structure FileSys where
  fexists : String → Bool
  getmtime : String → Int
  readf : String → String

/-- Test whether `pre` is a leading substring of `s`
(the value of Python `s.startswith(pre)`). -/
def strHeads (s pre : String) : Bool := pre.data.isPrefixOf s.data

/-- Test whether `post` is a trailing substring of `s`
(the value of Python `s.endswith(post)`). -/
def strTails (s post : String) : Bool := post.data.isSuffixOf s.data

/-- Python `os.path.join(a, b)` on POSIX. -/
def joinPath (a b : String) : String :=
  if strHeads b "/" then b
  else if a = "" ∨ strTails a "/" then a ++ b
  else a ++ "/" ++ b

/-- Embedding of `gitlint.utils._get_cache_filename`: the per-user cache
root joined with "name.hash" joined with the absolute path of the file
with its leading separator stripped. `abspath` models `os.path.abspath`
and `home` models `os.path.expanduser("~")`. -/
def get_cache_filename (abspath : String → String) (home : String)
    (name linter_hash filename : String) : String :=
  let stripped := (abspath filename).drop 1
  let linter_dir := name ++ "." ++ linter_hash
  let base_cache_dir := joinPath (joinPath home ".git-lint") "cache"
  joinPath (joinPath base_cache_dir linter_dir) stripped

/-- Embedding of `gitlint.utils.get_output_from_cache`: the stored text
when the cache file exists and the source file modification time is
strictly earlier than the cache file modification time, else `none`. -/
def get_output_from_cache (fs : FileSys) (abspath : String → String) (home : String)
    (name linter_hash filename : String) : Option String :=
  let cache_filename := get_cache_filename abspath home name linter_hash filename
  if fs.fexists cache_filename = true ∧ fs.getmtime filename < fs.getmtime cache_filename then
    some (fs.readf cache_filename)
  else
    none

/-! ### Process runner and `lint_command` (gitlint/linters.py lines 57-132) -/

/-- How `subprocess.check_output(call_arguments, stderr=subprocess.STDOUT)`
returns for this invocation: normal return with the combined
stdout-and-stderr text, a `CalledProcessError` with a nonzero exit code
and the combined output, or an `OSError` (program could not be started). -/
inductive ProcChild where
  | ok (output : String)
  | exit (code : Int) (output : String)
  | oserror
deriving DecidableEq

/-- Per-file result record: the value of the inner dict of
`{filename: {...}}`. A field is `none` when the corresponding key is
absent from the dict and `some l` (possibly with `l = []`) when present. -/
structure FileRecord where
  error : Option (List String)
  skipped : Option (List String)
  comments : Option (List Comment)
deriving DecidableEq

/-- The empty defaultdict record. -/
def emptyRecord : FileRecord := ⟨none, none, none⟩

/-- Result of one `lint_command` call: the filename key, the per-file
record, plus the two side effects made explicit — the command line passed
to the process runner (`none` when no process was launched) and the text
written to the cache (`none` when nothing was written). `hashUsed` is the
invocation hash computed for the cache lookup. -/
structure CmdResult where
  filename : String
  record : FileRecord
  invocation : Option (List String)
  cacheSaved : Option String
  hashUsed : Option String
deriving DecidableEq

/-- Embedding of `gitlint.linters.lint_command`. `search` stands for the
search function of the pattern compiled from
`filter_regex.format(lines=lines_regex lines, filename=re.escape(filename))`;
`cached` is the value returned by `get_output_from_cache` for this key and
`child` describes how the external process would behave on a cache miss. -/
def lint_command (search : String → Option MatchData) (name program : String)
    (arguments : List String) (fatal_exits : List Int)
    (cached : Option String) (child : ProcChild)
    (filename : String) (lines : Option (List Int)) : CmdResult :=
  let linter_hash := calculate_hash program arguments
  let call_arguments := [program] ++ arguments ++ [filename]
  match cached with
  | some output =>
      { filename := filename
        record := ⟨none, none, some (parse_output search output)⟩
        invocation := none
        cacheSaved := none
        hashUsed := some linter_hash }
  | none =>
      match child with
      | .ok output =>
          { filename := filename
            record := ⟨none, none, some (parse_output search output)⟩
            invocation := some call_arguments
            cacheSaved := some output
            hashUsed := some linter_hash }
      | .exit code output =>
          if code ∈ fatal_exits then
            { filename := filename
              record := ⟨some ["\"" ++ String.intercalate " " call_arguments
                               ++ "\" returned error code " ++ toString code ++ "."
                               ++ os_linesep ++ "Output:" ++ output ++ os_linesep],
                         none, none⟩
              invocation := some call_arguments
              cacheSaved := none
              hashUsed := some linter_hash }
          else
            { filename := filename
              record := ⟨none, none, some (parse_output search output)⟩
              invocation := some call_arguments
              cacheSaved := some output
              hashUsed := some linter_hash }
      | .oserror =>
          { filename := filename
            record := ⟨some ["Could not execute \"" ++ String.intercalate " " call_arguments
                             ++ "\"." ++ os_linesep
                             ++ "Make sure all required programs are installed"],
                       none, none⟩
            invocation := some call_arguments
            cacheSaved := none
            hashUsed := some linter_hash }

/-! ### Configuration compiler (gitlint/linters.py lines 41-54, 141-168) -/

/-- Embedding of `gitlint.linters.missing_requirements_command`, returning
the filename key and its record. -/
def missing_requirements_command (missing_programs : List String)
    (installation_string : String) (filename : String) : String × FileRecord :=
  let verb := if missing_programs.length > 1 then "are" else "is"
  (filename,
   ⟨none,
    some [String.intercalate ", " missing_programs ++ " " ++ verb
          ++ " not installed. " ++ installation_string],
    none⟩)

/-- Embedding of `gitlint.utils.programs_not_in_path`; `whichFound p`
models whether `gitlint.utils.which(p)` found at least one candidate. -/
def programs_not_in_path (whichFound : String → Bool) (programs : List String) :
    List String :=
  programs.filter (fun p => !(whichFound p))

/-- A compiled linter binding: either the stub partial application of
`missing_requirements_command` or the partial application of
`lint_command` (gitlint/linters.py lines 159-164). -/
inductive LinterBinding where
  | missing (programs : List String) (installation : String)
  | runnable (name command : String) (arguments : List String)
      (fatal_exits : List Int) (filter_regex : String)
deriving DecidableEq

/-- One configuration entry, after Yaml loading, with the source defaults
applied: `requirements`, `arguments` and `fatal_exits` default to empty
lists when absent from the entry. -/
structure YamlEntry where
  command : String
  requirements : List String
  arguments : List String
  installation : String
  fatal_exits : List Int
  filter_regex : String
  extensions : List String
deriving DecidableEq

/-- Compilation of one entry of `parse_yaml_config` (gitlint/linters.py
lines 151-164). `subst` models `_replace_variables` (substitution of the
DEFAULT_CONFIGS and REPO_HOME placeholders) and `whichFound` the PATH
search. The command and every requirement must be found, else the stub
binding is produced with the programs not found. -/
def compile_entry (whichFound : String → Bool) (subst : String → String)
    (name : String) (e : YamlEntry) : LinterBinding :=
  let command := subst e.command
  let requirements := e.requirements.map subst
  let arguments := e.arguments.map subst
  let not_found_programs := programs_not_in_path whichFound (command :: requirements)
  if not_found_programs.isEmpty then
    .runnable name command arguments e.fatal_exits e.filter_regex
  else
    .missing not_found_programs e.installation

/-- Invocation of a compiled binding on (filename, lines): the stub runs
`missing_requirements_command` (no process, no hash, no cache traffic),
the runnable binding runs `lint_command`. -/
def invoke_binding (b : LinterBinding) (search : String → Option MatchData)
    (cached : Option String) (child : ProcChild)
    (filename : String) (lines : Option (List Int)) : CmdResult :=
  match b with
  | .missing programs installation =>
      { filename := (missing_requirements_command programs installation filename).1
        record := (missing_requirements_command programs installation filename).2
        invocation := none
        cacheSaved := none
        hashUsed := none }
  | .runnable name command arguments fatal_exits _filter_regex =>
      lint_command search name command arguments fatal_exits cached child filename lines

/-! ### Lint orchestrator (gitlint/linters.py lines 171-209) -/

/-- The segment of a character list strictly after the last occurrence of
`sep` (the whole list when `sep` does not occur). -/
def afterLastChar (sep : Char) : List Char → List Char
  | [] => []
  | c :: cs =>
      if sep ∈ cs then afterLastChar sep cs
      else if c = sep then cs
      else c :: afterLastChar sep cs

/-- Embedding of `os.path.splitext` on POSIX (as `posixpath._splitext`):
the extension starts at the last dot of the last path component, provided
some earlier character of that component is not a dot (so leading dots of
the basename never start an extension); otherwise the extension is empty. -/
def splitext (p : List Char) : List Char × List Char :=
  let base := afterLastChar '/' p
  let t := base.dropWhile (fun c => c = '.')
  if '.' ∈ t then
    let ext := '.' :: afterLastChar '.' t
    (p.take (p.length - ext.length), ext)
  else
    (p, [])

/-- The configuration lookup key of `gitlint.linters.lint` (lines
186-187): the extension when the file has one, else the bare filename
(`os.path.split(root)[1]`). -/
def config_key (filename : String) : String :=
  let pr := splitext filename.data
  if pr.2 ≠ [] then ⟨pr.2⟩ else ⟨afterLastChar '/' pr.1⟩

/-- Merging of one output category across the per-linter records, in
execution order: the key is present in the merged defaultdict as soon as
one record carries it (even with an empty list), and the lists are
concatenated in order. -/
def mergeOpt (a b : Option (List α)) : Option (List α) :=
  match a, b with
  | none, none => none
  | _, _ => some (a.getD [] ++ b.getD [])

/-- Fold of `mergeOpt` over the per-linter values of one category. -/
def mergeField (os : List (Option (List α))) : Option (List α) :=
  os.foldl mergeOpt none

/-- The merge loop of `gitlint.linters.lint` (lines 189-193): each
category of each record is appended, in execution order, into one
defaultdict. The categories are independent, so the loop is the per-field
fold. -/
def mergeAll (rs : List FileRecord) : FileRecord :=
  ⟨mergeField (rs.map (fun r => r.error)),
   mergeField (rs.map (fun r => r.skipped)),
   mergeField (rs.map (fun r => r.comments))⟩

/-- The sort key of `gitlint.linters.lint` (line 198):
`(x.get("line", -1), x.get("column", -1))`. -/
def commentKey (c : Comment) : Int × Int := (c.line.getD (-1), c.column.getD (-1))

/-- Lexicographic order on the sort keys (Python tuple comparison). -/
def pairLe (x y : Int × Int) : Prop := x.1 < y.1 ∨ (x.1 = y.1 ∧ x.2 ≤ y.2)

instance (x y : Int × Int) : Decidable (pairLe x y) := by
  unfold pairLe; exact inferInstance

/-- Comparison of comments by their sort keys. -/
def commentLe (a b : Comment) : Prop := pairLe (commentKey a) (commentKey b)

instance (a b : Comment) : Decidable (commentLe a b) := by
  unfold commentLe; exact inferInstance

instance : IsTotal Comment commentLe := by
  constructor
  intro a b
  unfold commentLe pairLe
  rcases lt_trichotomy (commentKey a).1 (commentKey b).1 with h | h | h
  · exact Or.inl (Or.inl h)
  · rcases le_total (commentKey a).2 (commentKey b).2 with h2 | h2
    · exact Or.inl (Or.inr ⟨h, h2⟩)
    · exact Or.inr (Or.inr ⟨h.symm, h2⟩)
  · exact Or.inr (Or.inl h)

instance : IsTrans Comment commentLe := by
  constructor
  intro a b c hab hbc
  unfold commentLe pairLe at *
  rcases hab with h1 | ⟨h1, h1c⟩
  · rcases hbc with h2 | ⟨h2, _⟩
    · exact Or.inl (lt_trans h1 h2)
    · exact Or.inl (h2 ▸ h1)
  · rcases hbc with h2 | ⟨h2, h2c⟩
    · exact Or.inl (h1 ▸ h2)
    · exact Or.inr ⟨h1.trans h2, le_trans h1c h2c⟩

/-- Python `sorted` is a stable sort; any two stable sorts for the same
total transitive comparison agree, so it is modelled as insertion sort. -/
def pySorted (cs : List Comment) : List Comment := List.insertionSort commentLe cs

/-- A bound linter as `lint` sees it: a function from (filename, lines)
to the record stored under the filename key of its return value. -/
abbrev LinterFn : Type := String → Option (List Int) → FileRecord

/-- The skip message of `gitlint.linters.lint` (lines 202-209). -/
def no_linter_message (key : String) : String :=
  "no linter is defined or enabled for files with extension or name \"" ++ key ++ "\""

/-- Embedding of `gitlint.linters.lint`: look up the config key, invoke
every binding in configuration order, merge the categories, sort the
comments when that category is present, or produce the skipped record
when no linter is configured for the key. -/
def lint (filename : String) (lines : Option (List Int))
    (config : String → Option (List LinterFn)) : String × FileRecord :=
  let key := config_key filename
  match config key with
  | some linters =>
      let outs := linters.map (fun l => l filename lines)
      let merged := mergeAll outs
      let final : FileRecord :=
        match merged.comments with
        | some cs => ⟨merged.error, merged.skipped, some (pySorted cs)⟩
        | none => merged
      (filename, final)
  | none =>
      (filename, ⟨none, some [no_linter_message (config_key filename)], none⟩)

/-! ### Helper lemmas -/

/-- A filterMap is the map of the extraction over the lines kept by the
matching test, for any default value. -/
theorem filterMap_eq_filter_map {α β : Type} (f : α → Option β) (dflt : β) (l : List α) :
    l.filterMap f = (l.filter (fun x => (f x).isSome)).map (fun x => (f x).getD dflt) := by
  induction l with
  | nil => rfl
  | cons a l ih =>
      cases h : f a with
      | none => simp [List.filterMap_cons, List.filter_cons, h, ih]
      | some b => simp [List.filterMap_cons, List.filter_cons, h, ih]

theorem mergeOpt_some_left {α : Type} (l : List α) (o : Option (List α)) :
    mergeOpt (some l) o = some (l ++ o.getD []) := by
  cases o <;> rfl

theorem foldl_mergeOpt_some {α : Type} (os : List (Option (List α))) (l : List α) :
    os.foldl mergeOpt (some l) = some (l ++ (os.map (fun o => o.getD [])).flatten) := by
  induction os generalizing l with
  | nil => simp
  | cons o os ih =>
      simp only [List.foldl_cons, mergeOpt_some_left, ih, List.map_cons, List.flatten_cons,
        List.append_assoc]

theorem mergeField_eq_none_iff {α : Type} (os : List (Option (List α))) :
    mergeField os = none ↔ ∀ o ∈ os, o = none := by
  induction os with
  | nil => simp [mergeField]
  | cons o os ih =>
      cases o with
      | none =>
          simpa [mergeField, mergeOpt] using ih
      | some v =>
          simp [mergeField, mergeOpt, foldl_mergeOpt_some]

theorem mergeField_eq_some {α : Type} (os : List (Option (List α))) (l : List α)
    (h : mergeField os = some l) : l = (os.map (fun o => o.getD [])).flatten := by
  induction os generalizing l with
  | nil => simp [mergeField] at h
  | cons o os ih =>
      cases o with
      | none =>
          have h2 : mergeField os = some l := by
            simpa [mergeField, mergeOpt] using h
          simpa using ih l h2
      | some v =>
          have h2 : os.foldl mergeOpt (some v) = some l := by
            simpa [mergeField, mergeOpt] using h
          rw [foldl_mergeOpt_some] at h2
          simpa using h2.symm

theorem afterLastChar_of_not_mem {sep : Char} {l : List Char} (h : sep ∉ l) :
    afterLastChar sep l = l := by
  induction l with
  | nil => rfl
  | cons c cs ih =>
      have hc : c ≠ sep := fun e => h (e ▸ List.mem_cons_self c cs)
      have hcs : sep ∉ cs := fun m => h (List.mem_cons_of_mem c m)
      simp [afterLastChar, hc, hcs, ih hcs, fun m => hcs m]

theorem afterLastChar_suffix (sep : Char) (l : List Char) :
    afterLastChar sep l <:+ l := by
  induction l with
  | nil => exact List.suffix_refl []
  | cons c cs ih =>
      show (if sep ∈ cs then afterLastChar sep cs
            else if c = sep then cs else c :: afterLastChar sep cs) <:+ c :: cs
      by_cases hm : sep ∈ cs
      · rw [if_pos hm]
        exact ih.trans (List.suffix_cons c cs)
      · by_cases hc : c = sep
        · rw [if_neg hm, if_pos hc]
          exact List.suffix_cons c cs
        · rw [if_neg hm, if_neg hc, afterLastChar_of_not_mem hm]

theorem afterLastChar_not_mem (sep : Char) (l : List Char) :
    sep ∉ afterLastChar sep l := by
  induction l with
  | nil => simp [afterLastChar]
  | cons c cs ih =>
      by_cases hm : sep ∈ cs
      · simpa [afterLastChar, hm] using ih
      · by_cases hc : c = sep
        · simpa [afterLastChar, hm, hc] using hm
        · simp only [afterLastChar, hm, if_false, hc]
          rw [afterLastChar_of_not_mem hm]
          intro h
          rcases List.mem_cons.mp h with h | h
          · exact hc h.symm
          · exact hm h

/-- When the stripped basename still holds a dot, the segment from the
last dot on is a suffix of it. -/
theorem fromLastDot_suffix {t : List Char} (h : '.' ∈ t) :
    ('.' :: afterLastChar '.' t) <:+ t := by
  induction t with
  | nil => cases h
  | cons c cs ih =>
      by_cases hm : '.' ∈ cs
      · simp only [afterLastChar, hm, if_true]
        exact (ih hm).trans (List.suffix_cons c cs)
      · have hc : c = '.' := by
          rcases List.mem_cons.mp h with h | h
          · exact h.symm
          · exact absurd h hm
        show ('.' :: afterLastChar '.' (c :: cs)) <:+ c :: cs
        have : afterLastChar '.' (c :: cs) = cs := by
          show (if '.' ∈ cs then afterLastChar '.' cs
                else if c = '.' then cs else c :: afterLastChar '.' cs) = cs
          rw [if_neg hm, if_pos hc]
        rw [this, hc]

/-- The extension computed by `splitext` is a suffix of the path. -/
theorem splitext_ext_suffix (p : List Char) : (splitext p).2 <:+ p := by
  unfold splitext
  by_cases h : '.' ∈ (afterLastChar '/' p).dropWhile (fun c => c = '.')
  · simp only [h, if_true]
    exact ((fromLastDot_suffix h).trans (List.dropWhile_suffix _)).trans
      (afterLastChar_suffix '/' p)
  · simp [h]

/-- Reassembly of a suffix with the matching take of its carrier. -/
theorem take_sub_append_of_suffix {α : Type} {e p : List α} (h : e <:+ p) :
    p.take (p.length - e.length) ++ e = p := by
  obtain ⟨s, rfl⟩ := h
  simp

/-- The root and the extension of `splitext` concatenate back to the path. -/
theorem splitext_append (p : List Char) : (splitext p).1 ++ (splitext p).2 = p := by
  unfold splitext
  by_cases h : '.' ∈ (afterLastChar '/' p).dropWhile (fun c => c = '.')
  · simp only [h, if_true]
    exact take_sub_append_of_suffix
      (((fromLastDot_suffix h).trans (List.dropWhile_suffix _)).trans
        (afterLastChar_suffix '/' p))
  · simp [h]

set_option maxRecDepth 1000000 in
/-- Validation of the SHA-256 embedding on the one-block FIPS 180-4 test
vector. -/
theorem sha256hex_abc :
    sha256hex (strBytes "abc")
      = "ba7816bf8f01cfea414140de5dae2223b00361a396177a9cb410ff61f20015ad" := by
  decide

set_option maxRecDepth 1000000 in
/-- Validation of the SHA-256 embedding on the two-block FIPS 180-4 test
vector (a 56-byte message exercising the padding overflow). -/
theorem sha256hex_two_blocks :
    sha256hex (strBytes "abcdbcdecdefdefgefghfghighijhijkijkljklmklmnlmnomnopnopq")
      = "248d6a61d20638b8e5c026930c3e6039a33ce45964ff2167f6ecedd419db06c1" := by
  decide

/-- Reduction of `lint` when the configuration has the key. -/
theorem lint_eq_of_config_some (filename : String) (lines : Option (List Int))
    (config : String → Option (List LinterFn)) (linters : List LinterFn)
    (h : config (config_key filename) = some linters) :
    lint filename lines config =
      (filename,
       match (mergeAll (linters.map (fun l => l filename lines))).comments with
       | some cs =>
           ⟨(mergeAll (linters.map (fun l => l filename lines))).error,
            (mergeAll (linters.map (fun l => l filename lines))).skipped,
            some (pySorted cs)⟩
       | none => mergeAll (linters.map (fun l => l filename lines))) := by
  unfold lint
  simp only [h]

/-! ### Claims -/

/-- Claim C1: parsing yields exactly one comment per output line on which
the compiled pattern matches, in input order, non-matching lines dropped;
each comment holds exactly the fields whose named group matched, with
line and column converted to integers, severity title-cased, message and
message_id raw. -/
theorem parse_one_comment_per_matching_line
    (search : String → Option MatchData) (out : String) :
    parse_output search out
      = ((splitLines out).filter (fun l => (search l).isSome)).map
          (fun l => mkComment ((search l).getD defaultMatchData))
    ∧ (parse_output search out).length
        = (splitLines out).countP (fun l => (search l).isSome)
    ∧ ∀ md : MatchData,
        ((mkComment md).line.isSome ↔ md.line.isSome)
      ∧ ((mkComment md).column.isSome ↔ md.column.isSome)
      ∧ ((mkComment md).severity.isSome ↔ md.severity.isSome)
      ∧ ((mkComment md).message_id.isSome ↔ md.message_id.isSome)
      ∧ (mkComment md).line = md.line.map pyInt
      ∧ (mkComment md).column = md.column.map pyInt
      ∧ (mkComment md).severity = md.severity.map pyTitle
      ∧ (mkComment md).message = md.message
      ∧ (mkComment md).message_id = md.message_id := by
  refine ⟨?_, ?_, ?_⟩
  · unfold parse_output filter_lines
    rw [filterMap_eq_filter_map search defaultMatchData, List.map_map]
    rfl
  · unfold parse_output filter_lines
    rw [List.length_map, List.countP_eq_length_filter,
      filterMap_eq_filter_map search defaultMatchData, List.length_map]
  · intro md
    exact ⟨by simp [mkComment], by simp [mkComment], by simp [mkComment],
      by simp [mkComment], rfl, rfl, rfl, rfl, rfl⟩

/-- Claim C3: an exit code contained in the fatal list yields an error
record with the full command line, the exit code and the output, no
comments key, no skipped key, and no cache write. -/
theorem fatal_exit_code_error (search : String → Option MatchData)
    (name program : String) (arguments : List String) (fatal_exits : List Int)
    (code : Int) (out filename : String) (lines : Option (List Int))
    (h : code ∈ fatal_exits) :
    lint_command search name program arguments fatal_exits none (.exit code out) filename lines
      = { filename := filename
          record := ⟨some ["\"" ++ String.intercalate " " ([program] ++ arguments ++ [filename])
                           ++ "\" returned error code " ++ toString code ++ "."
                           ++ os_linesep ++ "Output:" ++ out ++ os_linesep], none, none⟩
          invocation := some ([program] ++ arguments ++ [filename])
          cacheSaved := none
          hashUsed := some (calculate_hash program arguments) } := by
  simp [lint_command, h]

/-- Claim C3, witness: the fatal-exit scenario of the specification
(fatal_exits [2], exit code 2, output "boom"). -/
theorem fatal_exit_code_error_witness :
    ((2 : Int) ∈ [(2 : Int)])
    ∧ lint_command (fun _ => none) "n" "p" ["-v"] [2] none (.exit 2 "boom") "f.py" none
        = { filename := "f.py"
            record := ⟨some ["\"" ++ String.intercalate " " (["p"] ++ ["-v"] ++ ["f.py"])
                             ++ "\" returned error code " ++ toString (2 : Int) ++ "."
                             ++ os_linesep ++ "Output:" ++ "boom" ++ os_linesep], none, none⟩
            invocation := some (["p"] ++ ["-v"] ++ ["f.py"])
            cacheSaved := none
            hashUsed := some (calculate_hash "p" ["-v"]) } :=
  ⟨by decide, fatal_exit_code_error (fun _ => none) "n" "p" ["-v"] [2] 2 "boom" "f.py" none (by decide)⟩

/-- Claim C8: on a cache miss the command line is program, arguments in
order, filename last; a nonzero exit code outside the fatal list is
treated as normal output — cached, then parsed into comments, with no
error entry. -/
theorem process_invocation_nonfatal (search : String → Option MatchData)
    (name program : String) (arguments : List String) (fatal_exits : List Int)
    (code : Int) (out filename : String) (lines : Option (List Int))
    (h : code ∉ fatal_exits) :
    (lint_command search name program arguments fatal_exits none (.exit code out) filename lines
      = { filename := filename
          record := ⟨none, none, some (parse_output search out)⟩
          invocation := some ([program] ++ arguments ++ [filename])
          cacheSaved := some out
          hashUsed := some (calculate_hash program arguments) })
    ∧ (lint_command search name program arguments fatal_exits none (.ok out) filename lines).invocation
        = some ([program] ++ arguments ++ [filename])
    ∧ (lint_command search name program arguments fatal_exits none .oserror filename lines).invocation
        = some ([program] ++ arguments ++ [filename]) := by
  refine ⟨?_, rfl, rfl⟩
  simp [lint_command, h]

/-- Claim C8, witness: exit code 1 with fatal list [2] produces parsed
comments and a cache write, with the expected command line. -/
theorem process_invocation_nonfatal_witness :
    ((1 : Int) ∉ [(2 : Int)])
    ∧ lint_command (fun _ => none) "n" "p" ["-v"] [2] none (.exit 1 "boom") "f.py" none
        = { filename := "f.py"
            record := ⟨none, none, some (parse_output (fun _ => none) "boom")⟩
            invocation := some (["p"] ++ ["-v"] ++ ["f.py"])
            cacheSaved := some "boom"
            hashUsed := some (calculate_hash "p" ["-v"]) } :=
  ⟨by decide,
   (process_invocation_nonfatal (fun _ => none) "n" "p" ["-v"] [2] 1 "boom" "f.py" none (by decide)).1⟩

/-- Claim C6: the cached output is returned exactly when the cache file
exists at the derived location and the source modification time is
strictly earlier than the cache modification time; otherwise `none`. -/
theorem cache_get_iff (fs : FileSys) (abspath : String → String)
    (home name linter_hash filename : String) :
    (∀ t, get_output_from_cache fs abspath home name linter_hash filename = some t
       ↔ (fs.fexists (get_cache_filename abspath home name linter_hash filename) = true
          ∧ fs.getmtime filename
              < fs.getmtime (get_cache_filename abspath home name linter_hash filename)
          ∧ t = fs.readf (get_cache_filename abspath home name linter_hash filename)))
    ∧ (¬(fs.fexists (get_cache_filename abspath home name linter_hash filename) = true
         ∧ fs.getmtime filename
             < fs.getmtime (get_cache_filename abspath home name linter_hash filename))
        → get_output_from_cache fs abspath home name linter_hash filename = none) := by
  unfold get_output_from_cache
  by_cases hc : fs.fexists (get_cache_filename abspath home name linter_hash filename) = true
      ∧ fs.getmtime filename
          < fs.getmtime (get_cache_filename abspath home name linter_hash filename)
  · rw [if_pos hc]
    constructor
    · intro t
      constructor
      · intro ht
        exact ⟨hc.1, hc.2, (Option.some_inj.mp ht).symm⟩
      · intro ht
        rw [ht.2.2]
    · intro hn
      exact absurd hc hn
  · rw [if_neg hc]
    constructor
    · intro t
      constructor
      · intro ht
        cases ht
      · intro ht
        exact absurd ⟨ht.1, ht.2.1⟩ hc
    · intro _
      rfl

/-- Claim C6, witness: with a filesystem where the cache file is absent,
the lookup misses. -/
theorem cache_get_iff_witness :
    ¬((⟨fun _ => false, fun _ => 0, fun _ => ""⟩ : FileSys).fexists
        (get_cache_filename (fun s => "/" ++ s) "/h" "n" "h1" "f.py") = true
      ∧ (⟨fun _ => false, fun _ => 0, fun _ => ""⟩ : FileSys).getmtime "f.py"
          < (⟨fun _ => false, fun _ => 0, fun _ => ""⟩ : FileSys).getmtime
              (get_cache_filename (fun s => "/" ++ s) "/h" "n" "h1" "f.py"))
    ∧ get_output_from_cache ⟨fun _ => false, fun _ => 0, fun _ => ""⟩
        (fun s => "/" ++ s) "/h" "n" "h1" "f.py" = none :=
  ⟨by decide,
   (cache_get_iff ⟨fun _ => false, fun _ => 0, fun _ => ""⟩
      (fun s => "/" ++ s) "/h" "n" "h1" "f.py").2 (by decide)⟩

/-- Claim C2, counterexample: the argument lists ["b|c"] and ["b", "c"]
differ in content, yet under program "a" both feed the byte stream
"a|b|c" to the hash, so the two invocation hashes are equal. -/
theorem calculate_hash_collision_counterexample :
    calculate_hash "a" ["b|c"] = calculate_hash "a" ["b", "c"]
    ∧ ["b|c"] ≠ (["b", "c"] : List String) :=
  ⟨show sha256hex (hashMsg "a" ["b|c"]) = sha256hex (hashMsg "a" ["b", "c"]) from
     congrArg sha256hex (by decide),
   by decide⟩

set_option maxRecDepth 1000000 in
/-- Claim C2, amended: the invocation hash is a deterministic function of
(program, arguments) only — `lint_command` computes it from program and
arguments whatever the filename and lines are — and it depends on them
only through the joined byte stream, so equal streams always give equal
hashes (argument lists that differ may therefore collide, as in the
counterexample), while for example ("a", ["b"]) and ("a", ["c"]) do
produce different hashes. -/
theorem calculate_hash_amended :
    (∀ (p : String) (a : List String) (q : String) (b : List String),
        hashMsg p a = hashMsg q b → calculate_hash p a = calculate_hash q b)
    ∧ (∀ (search : String → Option MatchData) (name program : String)
         (arguments : List String) (fatal_exits : List Int)
         (cached : Option String) (child : ProcChild)
         (filename : String) (lines : Option (List Int)),
        (lint_command search name program arguments fatal_exits cached child filename lines).hashUsed
          = some (calculate_hash program arguments))
    ∧ calculate_hash "a" ["b"] ≠ calculate_hash "a" ["c"] := by
  refine ⟨?_, ?_, ?_⟩
  · intro p a q b h
    unfold calculate_hash
    rw [h]
  · intro search name program arguments fatal_exits cached child filename lines
    cases cached with
    | some o => rfl
    | none =>
        cases child with
        | ok o => rfl
        | exit code o =>
            by_cases h : code ∈ fatal_exits
            · simp [lint_command, h]
            · simp [lint_command, h]
        | oserror => rfl
  · decide

/-- Claim C2, witness: program "x" with argument list ["y"] and program
"x|y" with no arguments have the same byte stream, hence the same hash. -/
theorem calculate_hash_amended_witness :
    hashMsg "x" ["y"] = hashMsg "x|y" []
    ∧ calculate_hash "x" ["y"] = calculate_hash "x|y" [] :=
  ⟨by decide, calculate_hash_amended.1 "x" ["y"] "x|y" [] (by decide)⟩

/-- Presence of the merged comments key: present exactly when some
per-linter record carries the key. -/
theorem mergeAll_comments_isSome_iff (rs : List FileRecord) :
    (mergeAll rs).comments.isSome ↔ ∃ r ∈ rs, r.comments.isSome := by
  show (mergeField (rs.map (fun r => r.comments))).isSome ↔ _
  rw [Option.isSome_iff_ne_none]
  constructor
  · intro h
    by_contra hn
    push_neg at hn
    apply h
    apply (mergeField_eq_none_iff _).mpr
    rw [List.forall_mem_map]
    intro r hr
    exact Option.not_isSome_iff_eq_none.mp (by simpa using hn r hr)
  · rintro ⟨r, hr, hs⟩ h
    have hnone := (mergeField_eq_none_iff (rs.map (fun r => r.comments))).mp h
    rw [List.forall_mem_map] at hnone
    rw [hnone r hr] at hs
    simp at hs

/-- Claim C10: whenever output is acquired (cache hit, zero exit, or
nonzero non-fatal exit) the record carries the comments key, and that key
holds the empty list when no line matches; at the lint level the merged
result has a comments list exactly when some linter record carried one. -/
theorem comments_key_always_present :
    (∀ (search : String → Option MatchData) (name program : String)
       (arguments : List String) (fatal_exits : List Int) (out : String)
       (child : ProcChild) (filename : String) (lines : Option (List Int)),
        (lint_command search name program arguments fatal_exits (some out) child filename lines).record.comments
          = some (parse_output search out))
    ∧ (∀ (search : String → Option MatchData) (name program : String)
         (arguments : List String) (fatal_exits : List Int) (out : String)
         (filename : String) (lines : Option (List Int)),
        (lint_command search name program arguments fatal_exits none (.ok out) filename lines).record.comments
          = some (parse_output search out))
    ∧ (∀ (search : String → Option MatchData) (name program : String)
         (arguments : List String) (fatal_exits : List Int) (code : Int) (out : String)
         (filename : String) (lines : Option (List Int)),
        code ∉ fatal_exits →
        (lint_command search name program arguments fatal_exits none (.exit code out) filename lines).record.comments
          = some (parse_output search out))
    ∧ (∀ (search : String → Option MatchData) (out : String),
        (∀ l ∈ splitLines out, search l = none) → parse_output search out = [])
    ∧ (∀ (filename : String) (lines : Option (List Int))
         (config : String → Option (List LinterFn)) (linters : List LinterFn),
        config (config_key filename) = some linters →
        ((lint filename lines config).2.comments.isSome
          ↔ ∃ r ∈ linters.map (fun l => l filename lines), r.comments.isSome)) := by
  refine ⟨?_, ?_, ?_, ?_, ?_⟩
  · intros; rfl
  · intros; rfl
  · intro search name program arguments fatal_exits code out filename lines h
    simp [lint_command, h]
  · intro search out h
    unfold parse_output filter_lines
    rw [List.filterMap_eq_nil_iff.mpr h]
    rfl
  · intro filename lines config linters h
    rw [lint_eq_of_config_some filename lines config linters h,
      ← mergeAll_comments_isSome_iff (linters.map (fun l => l filename lines))]
    cases hm : (mergeAll (linters.map (fun l => l filename lines))).comments with
    | some cs => simp [hm]
    | none => simp [hm]

/-- Claim C10, witness: a cache hit on output with no matching line
yields the comments key with the empty list; a nonzero non-fatal exit
yields the comments key; a linter record with an empty comments list
makes the merged lint result carry the key. -/
theorem comments_key_always_present_witness :
    (lint_command (fun _ => none) "n" "p" [] [] (some "x") .oserror "f.py" none).record.comments
        = some []
    ∧ ((1 : Int) ∉ ([] : List Int))
    ∧ (lint_command (fun _ => none) "n" "p" [] [] none (.exit 1 "x") "f.py" none).record.comments
        = some (parse_output (fun _ => none) "x")
    ∧ (lint "f.py" none
          (fun _ => some [(fun _ _ => ⟨none, none, some []⟩ : LinterFn)])).2.comments.isSome
        = true := by
  refine ⟨?_, by decide, ?_, ?_⟩
  · rw [comments_key_always_present.1 (fun _ => none) "n" "p" [] [] "x" .oserror "f.py" none,
      comments_key_always_present.2.2.2.1 (fun _ => none) "x" (fun l _ => rfl)]
  · exact comments_key_always_present.2.2.1 (fun _ => none) "n" "p" [] [] 1 "x" "f.py" none
      (by decide)
  · exact (comments_key_always_present.2.2.2.2 "f.py" none
      (fun _ => some [(fun _ _ => ⟨none, none, some []⟩ : LinterFn)])
      [(fun _ _ => ⟨none, none, some []⟩ : LinterFn)] rfl).mpr (by decide)

/-- Claim C5: when the configuration covers the key, the comments list of
the lint result is sorted ascending by (line, column) with -1 for absent
values and is a permutation of the concatenated per-linter comments,
while error and skipped lists are exactly the concatenations in linter
execution order. -/
theorem lint_sorts_comments (filename : String) (lines : Option (List Int))
    (config : String → Option (List LinterFn)) (linters : List LinterFn)
    (h : config (config_key filename) = some linters) :
    (∀ es, (lint filename lines config).2.error = some es →
        es = ((linters.map (fun l => l filename lines)).map (fun r => r.error.getD [])).flatten)
    ∧ ((lint filename lines config).2.error = none ↔
        ∀ r ∈ linters.map (fun l => l filename lines), r.error = none)
    ∧ (∀ ss, (lint filename lines config).2.skipped = some ss →
        ss = ((linters.map (fun l => l filename lines)).map (fun r => r.skipped.getD [])).flatten)
    ∧ ((lint filename lines config).2.skipped = none ↔
        ∀ r ∈ linters.map (fun l => l filename lines), r.skipped = none)
    ∧ (∀ cs, (lint filename lines config).2.comments = some cs →
        List.Sorted commentLe cs
        ∧ cs.Perm (((linters.map (fun l => l filename lines)).map
            (fun r => r.comments.getD [])).flatten)) := by
  rw [lint_eq_of_config_some filename lines config linters h]
  cases hm : (mergeAll (linters.map (fun l => l filename lines))).comments with
  | none =>
      simp only [hm]
      refine ⟨?_, ?_, ?_, ?_, ?_⟩
      · intro es hes
        simpa [List.map_map, Function.comp] using mergeField_eq_some _ es hes
      · show mergeField ((linters.map (fun l => l filename lines)).map (fun r => r.error)) = none ↔ _
        rw [mergeField_eq_none_iff, List.forall_mem_map]
      · intro ss hss
        simpa [List.map_map, Function.comp] using mergeField_eq_some _ ss hss
      · show mergeField ((linters.map (fun l => l filename lines)).map (fun r => r.skipped)) = none ↔ _
        rw [mergeField_eq_none_iff, List.forall_mem_map]
      · intro cs hcs
        simp at hcs
  | some cs0 =>
      simp only [hm]
      refine ⟨?_, ?_, ?_, ?_, ?_⟩
      · intro es hes
        simpa [List.map_map, Function.comp] using mergeField_eq_some _ es hes
      · show mergeField ((linters.map (fun l => l filename lines)).map (fun r => r.error)) = none ↔ _
        rw [mergeField_eq_none_iff, List.forall_mem_map]
      · intro ss hss
        simpa [List.map_map, Function.comp] using mergeField_eq_some _ ss hss
      · show mergeField ((linters.map (fun l => l filename lines)).map (fun r => r.skipped)) = none ↔ _
        rw [mergeField_eq_none_iff, List.forall_mem_map]
      · intro cs hcs
        have hcs0 : cs = pySorted cs0 := by simpa using hcs.symm
        have hflat : cs0 = ((linters.map (fun l => l filename lines)).map
            (fun r => r.comments.getD [])).flatten := by
          simpa [List.map_map, Function.comp] using mergeField_eq_some _ cs0 hm
        constructor
        · rw [hcs0]
          exact List.sorted_insertionSort commentLe cs0
        · rw [hcs0, ← hflat]
          exact List.perm_insertionSort commentLe cs0

/-- Claim C5, witness: two linters producing single comments at lines 3
and 1 merge into the sorted list [line 1, line 3]. -/
theorem lint_sorts_comments_witness :
    ((fun _ => some [(fun _ _ => ⟨some ["e1"], none, some [⟨some 3, none, none, none, none⟩]⟩ : LinterFn),
                     (fun _ _ => ⟨none, none, some [⟨some 1, none, none, none, none⟩]⟩ : LinterFn)])
        (config_key "a.py")
      = some [(fun _ _ => ⟨some ["e1"], none, some [⟨some 3, none, none, none, none⟩]⟩ : LinterFn),
              (fun _ _ => ⟨none, none, some [⟨some 1, none, none, none, none⟩]⟩ : LinterFn)])
    ∧ List.Sorted commentLe
        [⟨some 1, none, none, none, none⟩, ⟨some 3, none, none, none, none⟩] :=
  ⟨rfl,
   ((lint_sorts_comments "a.py" none
      (fun _ => some [(fun _ _ => ⟨some ["e1"], none, some [⟨some 3, none, none, none, none⟩]⟩ : LinterFn),
                      (fun _ _ => ⟨none, none, some [⟨some 1, none, none, none, none⟩]⟩ : LinterFn)])
      [(fun _ _ => ⟨some ["e1"], none, some [⟨some 3, none, none, none, none⟩]⟩ : LinterFn),
       (fun _ _ => ⟨none, none, some [⟨some 1, none, none, none, none⟩]⟩ : LinterFn)]
      rfl).2.2.2.2
      [⟨some 1, none, none, none, none⟩, ⟨some 3, none, none, none, none⟩]
      (by decide)).1⟩

/-- Claim C7: when the command or a requirement is not found in the
executable search path, the compiled binding is the stub, and invoking it
on any file yields a skipped diagnostic naming exactly the missing
programs ("is" for one, "are" for several) followed by the installation
hint, with no process launched and no cache traffic. -/
theorem missing_requirements_stub (whichFound : String → Bool) (subst : String → String)
    (name : String) (e : YamlEntry)
    (h : programs_not_in_path whichFound (subst e.command :: e.requirements.map subst) ≠ []) :
    compile_entry whichFound subst name e
      = .missing (programs_not_in_path whichFound (subst e.command :: e.requirements.map subst))
          e.installation
    ∧ ∀ (search : String → Option MatchData) (cached : Option String) (child : ProcChild)
        (filename : String) (lines : Option (List Int)),
        invoke_binding (compile_entry whichFound subst name e) search cached child filename lines
          = { filename := filename
              record :=
                ⟨none,
                 some [String.intercalate ", "
                         (programs_not_in_path whichFound (subst e.command :: e.requirements.map subst))
                       ++ " "
                       ++ (if (programs_not_in_path whichFound
                                 (subst e.command :: e.requirements.map subst)).length > 1
                           then "are" else "is")
                       ++ " not installed. " ++ e.installation],
                 none⟩
              invocation := none
              cacheSaved := none
              hashUsed := none } := by
  have hce : compile_entry whichFound subst name e
      = .missing (programs_not_in_path whichFound (subst e.command :: e.requirements.map subst))
          e.installation := by
    unfold compile_entry
    have hne : (programs_not_in_path whichFound (subst e.command :: e.requirements.map subst)).isEmpty
        = false := List.isEmpty_eq_false.mpr h
    simp only [hne]
    rfl
  refine ⟨hce, ?_⟩
  intro search cached child filename lines
  rw [hce]
  unfold invoke_binding missing_requirements_command
  rfl

/-- Claim C7, witness: a configuration entry whose command "cmd" is
nowhere in the path compiles to the stub, which skips every file with the
singular message and launches nothing. -/
theorem missing_requirements_stub_witness :
    programs_not_in_path (fun _ => false)
        ((fun s : String => s) "cmd" :: ([] : List String).map (fun s => s)) ≠ []
    ∧ invoke_binding
        (compile_entry (fun _ => false) (fun s => s) "n"
          ⟨"cmd", [], [], "apt install cmd", [], "fr", [".py"]⟩)
        (fun _ => none) none .oserror "f.py" none
      = { filename := "f.py"
          record := ⟨none, some ["cmd is not installed. apt install cmd"], none⟩
          invocation := none
          cacheSaved := none
          hashUsed := none } := by
  constructor
  · decide
  · exact ((missing_requirements_stub (fun _ => false) (fun s => s) "n"
      ⟨"cmd", [], [], "apt install cmd", [], "fr", [".py"]⟩ (by decide)).2
      (fun _ => none) none .oserror "f.py" none).trans (by decide)

/-- Claim C9: the configuration lookup key is the extension when the file
has one (a suffix of the path beginning with a dot) and the bare filename
otherwise, and a key with no configuration entry yields the single-entry
skipped record with the documented message. -/
theorem unknown_extension_skipped :
    (∀ filename : String,
        (splitext filename.data).1 ++ (splitext filename.data).2 = filename.data
        ∧ ((splitext filename.data).2 ≠ [] →
            config_key filename = String.mk (splitext filename.data).2
            ∧ (splitext filename.data).2.head? = some '.'
            ∧ '/' ∉ (splitext filename.data).2)
        ∧ ((splitext filename.data).2 = [] →
            config_key filename = String.mk (afterLastChar '/' filename.data)
            ∧ '/' ∉ afterLastChar '/' filename.data))
    ∧ (∀ (filename : String) (lines : Option (List Int))
         (config : String → Option (List LinterFn)),
        config (config_key filename) = none →
        lint filename lines config
          = (filename,
             ⟨none,
              some ["no linter is defined or enabled for files with extension or name \""
                    ++ config_key filename ++ "\""],
              none⟩)) := by
  constructor
  · intro filename
    refine ⟨splitext_append _, ?_, ?_⟩
    · intro hne
      refine ⟨?_, ?_, ?_⟩
      · unfold config_key
        rw [if_pos hne]
      · unfold splitext at hne ⊢
        by_cases hdot : '.' ∈ (afterLastChar '/' filename.data).dropWhile (fun c => c = '.')
        · simp only [hdot, if_true]
          rfl
        · simp [hdot] at hne
      · unfold splitext at hne ⊢
        by_cases hdot : '.' ∈ (afterLastChar '/' filename.data).dropWhile (fun c => c = '.')
        · simp only [hdot, if_true]
          intro hmem
          rcases List.mem_cons.mp hmem with hh | hh
          · exact absurd hh (by decide)
          · have hsub : afterLastChar '.' ((afterLastChar '/' filename.data).dropWhile
                (fun c => c = '.')) ⊆ afterLastChar '/' filename.data :=
              ((afterLastChar_suffix '.' _).subset).trans (List.dropWhile_suffix _).subset
            exact afterLastChar_not_mem '/' filename.data (hsub hh)
        · simp [hdot] at hne
    · intro hnil
      have hroot : (splitext filename.data).1 = filename.data := by
        have := splitext_append filename.data
        rw [hnil] at this
        simpa using this
      refine ⟨?_, afterLastChar_not_mem '/' filename.data⟩
      unfold config_key
      rw [if_neg (by simp [hnil]), hroot]
  · intro filename lines config h
    unfold lint
    simp only [h, no_linter_message]

/-- Claim C9, witness: the unknown-extension scenario of the
specification — linting foo.xyz with no entry for ".xyz". -/
theorem unknown_extension_skipped_witness :
    ((fun _ => (none : Option (List LinterFn))) (config_key "foo.xyz") = none)
    ∧ config_key "foo.xyz" = ".xyz"
    ∧ lint "foo.xyz" none (fun _ => none)
        = ("foo.xyz",
           ⟨none,
            some ["no linter is defined or enabled for files with extension or name \".xyz\""],
            none⟩) := by
  refine ⟨rfl, ?_, ?_⟩
  · exact ((unknown_extension_skipped.1 "foo.xyz").2.1 (by decide)).1.trans (by decide)
  · exact (unknown_extension_skipped.2 "foo.xyz" none (fun _ => none) rfl).trans (by decide)

/-- Claim C4: once a run has written output to the cache and the source
file is unchanged (its modification time still earlier than the cache
file one), the cache lookup returns that output, and a second
`lint_command` run with that lookup result skips process execution
entirely and produces the same record — the cached text is parsed as if
it were fresh output. -/
theorem cache_hit_idempotent (search : String → Option MatchData)
    (name program : String) (arguments : List String) (fatal_exits : List Int)
    (filename : String) (lines : Option (List Int)) (out : String) (child : ProcChild)
    (fs : FileSys) (abspath : String → String) (home : String)
    (hex : fs.fexists
        (get_cache_filename abspath home name (calculate_hash program arguments) filename) = true)
    (hmt : fs.getmtime filename
        < fs.getmtime
            (get_cache_filename abspath home name (calculate_hash program arguments) filename))
    (hread : fs.readf
        (get_cache_filename abspath home name (calculate_hash program arguments) filename) = out) :
    (lint_command search name program arguments fatal_exits none (.ok out) filename lines).cacheSaved
        = some out
    ∧ get_output_from_cache fs abspath home name (calculate_hash program arguments) filename
        = some out
    ∧ lint_command search name program arguments fatal_exits
        (get_output_from_cache fs abspath home name (calculate_hash program arguments) filename)
        child filename lines
      = { filename := filename
          record := (lint_command search name program arguments fatal_exits
              none (.ok out) filename lines).record
          invocation := none
          cacheSaved := none
          hashUsed := some (calculate_hash program arguments) }
    ∧ (lint_command search name program arguments fatal_exits
        (get_output_from_cache fs abspath home name (calculate_hash program arguments) filename)
        child filename lines).record.comments = some (parse_output search out) := by
  have hget : get_output_from_cache fs abspath home name (calculate_hash program arguments) filename
      = some out := by
    unfold get_output_from_cache
    simp only []
    rw [if_pos ⟨hex, hmt⟩, hread]
  refine ⟨rfl, hget, ?_, ?_⟩
  · rw [hget]
    rfl
  · rw [hget]
    rfl

set_option maxRecDepth 1000000 in
/-- Claim C4, witness: a concrete filesystem in which the cache file for
("p", no arguments) on f.py exists, holds "x", and is newer than f.py;
the lookup hits and the second run parses "x" without invoking anything. -/
theorem cache_hit_idempotent_witness :
    (⟨fun _ => true, fun s => if s = "f.py" then 0 else 1, fun _ => "x"⟩ : FileSys).fexists
        (get_cache_filename (fun s => "/" ++ s) "/h" "n" (calculate_hash "p" []) "f.py") = true
    ∧ (⟨fun _ => true, fun s => if s = "f.py" then 0 else 1, fun _ => "x"⟩ : FileSys).getmtime "f.py"
        < (⟨fun _ => true, fun s => if s = "f.py" then 0 else 1, fun _ => "x"⟩ : FileSys).getmtime
            (get_cache_filename (fun s => "/" ++ s) "/h" "n" (calculate_hash "p" []) "f.py")
    ∧ get_output_from_cache ⟨fun _ => true, fun s => if s = "f.py" then 0 else 1, fun _ => "x"⟩
        (fun s => "/" ++ s) "/h" "n" (calculate_hash "p" []) "f.py" = some "x"
    ∧ (lint_command (fun _ => none) "n" "p" [] []
        (get_output_from_cache ⟨fun _ => true, fun s => if s = "f.py" then 0 else 1, fun _ => "x"⟩
          (fun s => "/" ++ s) "/h" "n" (calculate_hash "p" []) "f.py")
        .oserror "f.py" none).record.comments = some (parse_output (fun _ => none) "x") := by
  refine ⟨rfl, by decide, ?_, ?_⟩
  · exact (cache_hit_idempotent (fun _ => none) "n" "p" [] [] "f.py" none "x" .oserror
      ⟨fun _ => true, fun s => if s = "f.py" then 0 else 1, fun _ => "x"⟩
      (fun s => "/" ++ s) "/h" rfl (by decide) rfl).2.1
  · exact (cache_hit_idempotent (fun _ => none) "n" "p" [] [] "f.py" none "x" .oserror
      ⟨fun _ => true, fun s => if s = "f.py" then 0 else 1, fun _ => "x"⟩
      (fun s => "/" ++ s) "/h" rfl (by decide) rfl).2.2.2

/-- Claim C1, witness: on a two-line output where only the first line
matches, the parse produces exactly as many comments as matching lines. -/
theorem parse_one_comment_per_matching_line_witness :
    (parse_output
        (fun l => if l = "a" then some ⟨some "3", none, some "m", some "error", none⟩ else none)
        "a\nb").length
      = (splitLines "a\nb").countP
          (fun l => ((fun l => if l = "a"
              then some (⟨some "3", none, some "m", some "error", none⟩ : MatchData)
              else none) l).isSome) :=
  (parse_one_comment_per_matching_line
    (fun l => if l = "a" then some ⟨some "3", none, some "m", some "error", none⟩ else none)
    "a\nb").2.1
